import Mathlib

set_option maxHeartbeats 1000000

namespace GTaskManager

/-!
Shallow embedding of the GTaskManager rollover orchestration code
(main.js, services.js, config.js). Strings are modelled as lists of
characters; the Google Tasks API, the lock service, the logging sheet and
the mail channel are modelled as oracles supplied through environment
records. All definitions are translated from the JavaScript source.
-/

/-- The literal stem of the regex used by migrateIncompleteTasks in main.js:
the fragment is this stem followed by one or more decimal digits. -/
def rolloStem : List Char := "Rollover Count: ".data

/-- The blank-line separator inserted before a freshly appended rollover
fragment when the notes were non-empty. -/
def nlnl : List Char := "\n\n".data

/-- Matches the literal p at the head of s, returning the remainder on
success and none otherwise. -/
def dropPfx : List Char → List Char → Option (List Char)
  | [], s => some s
  | _ :: _, [] => none
  | p :: ps, c :: cs => if p = c then dropPfx ps cs else none

/-- Embeds one attempt of the regex at the head of s: the literal stem
followed by a maximal non-empty run of decimal digits. Returns the digit
run and the remainder after it. -/
def matchAt (s : List Char) : Option (List Char × List Char) :=
  match dropPfx rolloStem s with
  | none => none
  | some rest =>
    match rest.takeWhile Char.isDigit with
    | [] => none
    | d :: ds => some (d :: ds, rest.dropWhile Char.isDigit)

/-- Embeds the leftmost-match search of String.prototype.match and
String.prototype.replace for the rollover regex: returns the text before
the first match, the matched digit run, and the text after it. -/
def findRollover : List Char → Option (List Char × List Char × List Char)
  | [] => none
  | c :: cs =>
    match matchAt (c :: cs) with
    | some (ds, rest) => some ([], ds, rest)
    | none => (findRollover cs).map (fun v => (c :: v.1, v.2.1, v.2.2))

/-- The number of positions of s at which the rollover regex matches; the
spec calls each such match a RolloverAnnotation fragment. -/
def fragmentCount : List Char → Nat
  | [] => 0
  | c :: cs => (if (matchAt (c :: cs)).isSome then 1 else 0) + fragmentCount cs

/-- The number of positions of xs ++ ys that lie inside xs and at which
the rollover regex matches xs ++ ys. -/
def countFrom : List Char → List Char → Nat
  | [], _ => 0
  | c :: cs, ys => (if (matchAt (c :: (cs ++ ys))).isSome then 1 else 0) + countFrom cs ys

/-- Embeds parseInt(digits, 10) on an all-digit string. -/
def parseDigits (ds : List Char) : Nat :=
  ds.foldl (fun a c => a * 10 + (c.toNat - 48)) 0

/-- Embeds the decimal rendering of a count used by the template literal
that rebuilds the fragment. -/
def renderNat (n : Nat) : List Char :=
  if _h : n < 10 then [Nat.digitChar n]
  else renderNat (n / 10) ++ [Nat.digitChar (n % 10)]
termination_by n
decreasing_by exact Nat.div_lt_self (by omega) (by omega)

/-- Embeds the notes update performed by migrateIncompleteTasks in main.js
when rollover tracking is enabled: increment the first fragment in place
if present, else append a fresh fragment at value 1, preceded by a blank
line when the notes were non-empty. -/
def bumpRollover (notes : List Char) : List Char :=
  match findRollover notes with
  | some v => v.1 ++ (rolloStem ++ (renderNat (parseDigits v.2.1 + 1) ++ v.2.2))
  | none => notes ++ ((if notes = [] then [] else nlnl) ++ (rolloStem ++ ['1']))

/-! Data model for tasks and lists, from the shapes used by services.js. -/

/-- Status string of an incomplete task in the Google Tasks API. -/
def needsActionStr : List Char := "needsAction".data

/-- Status string of a completed task in the Google Tasks API. -/
def completedStr : List Char := "completed".data

/-- Link type string checked by TaskService.move for email provenance. -/
def emailTypeStr : List Char := "email".data

/-- Title appendix added by TaskService.move for a task created from an
email. -/
def fromEmailTag : List Char := " [from email]".data

/-- Notes appendix stem added by TaskService.move before the original
email url. -/
def origEmailSep : List Char := "\n\n---\nOriginal Email: ".data

/-- A provenance link of a task, as read by TaskService.move. -/
structure GLink where
  type : List Char
  link : List Char
deriving DecidableEq

/-- A task as read from the Google Tasks API. Optional string fields are
modelled as lists of characters where the empty list stands for an absent
or empty (hence falsy) value; links distinguishes an absent array. -/
structure GTask where
  id : Nat
  title : List Char
  notes : List Char
  status : List Char
  due : List Char
  recurrence : List Char
  links : Option (List GLink)
deriving DecidableEq

namespace TaskService

/-- The fresh destination task as built by Tasks.newTask() in
TaskService.move before any field is assigned: no field of the source is
present, and an inserted task without an explicit status defaults to
needsAction (spec section 4.1: the destination task starts incomplete).
The id is assigned by the API and is modelled as 0. -/
def moveBase (task : GTask) : GTask :=
  { id := 0, title := task.title, notes := task.notes, status := needsActionStr,
    due := if task.due = [] then [] else task.due, recurrence := [], links := none }

/-- Embeds the destination-task construction of TaskService.move in
services.js: title, notes and due are taken from the source; if the links
carry an email-type link whose url is truthy and not already contained in
the notes, the provenance appendices are added to title and notes. -/
def move (task : GTask) : GTask :=
  match task.links with
  | some ls =>
    match ls.find? (fun l => decide (l.type = emailTypeStr)) with
    | some l =>
      if l.link ≠ [] ∧ ¬ l.link <:+: task.notes then
        { moveBase task with
          title := task.title ++ fromEmailTag,
          notes := task.notes ++ (origEmailSep ++ l.link) }
      else moveBase task
    | none => moveBase task
  | none => moveBase task

end TaskService

/-- Embeds TaskService.listIncompleteTasks from services.js: the tasks of
the list whose status is needsAction. -/
def listIncompleteTasks (allTasks : List GTask) : List GTask :=
  allTasks.filter (fun t => decide (t.status = needsActionStr))

/-- Modelled from the spec: TaskService.listAllTasks is called by
processInboxTasks in main.js but its definition is not among the provided
sources; per spec section 4.3 it enumerates every task of the list with
no status filter, so it is the identity on the fetched task sequence. -/
def listAllTasks (allTasks : List GTask) : List GTask := allTasks

/-- Embeds migrateIncompleteTasks from main.js at the level of one source
list: the incomplete tasks are each moved (after the rollover-tracking
notes update when enabled) and their number is returned. -/
def migrateIncompleteTasks (tasks : List GTask) (trackRollover : Bool) :
    List GTask × Nat :=
  let toMove := listIncompleteTasks tasks
  (toMove.map (fun t =>
      if trackRollover then TaskService.move { t with notes := bumpRollover t.notes }
      else TaskService.move t),
   toMove.length)

/-- The guard of the inbox sweep loop in processInboxTasks, main.js: skip
when there is no due value or a recurrence rule is present, otherwise
move exactly when the first ten characters of due equal the formatted
today string. -/
def shouldMove (todayStr : List Char) (t : GTask) : Bool :=
  if t.due = [] ∨ t.recurrence ≠ [] then false
  else decide (t.due.take 10 = todayStr)

/-- Embeds the loop of processInboxTasks from main.js over the enumerated
inbox tasks: returns the tasks for which TaskService.move is invoked and
the number added to stats.inboxMoves. -/
def processInboxTasks (tasks : List GTask) (todayStr : List Char) :
    List GTask × Nat :=
  match tasks with
  | [] => ([], 0)
  | t :: ts =>
    let r := processInboxTasks ts todayStr
    if shouldMove todayStr t then (t :: r.1, r.2 + 1) else r

/-! Run statistics and the rollover process, from main.js. -/

/-- A task list as returned by the Tasks API. -/
structure TList where
  id : Nat
  title : List Char
deriving DecidableEq

/-- The statistics record built by dailyRunner and mutated by
rolloverProcess and processInboxTasks. -/
structure RunStats where
  inboxAdds : Nat
  listDeleted : Nat
  listCreated : Nat
  inboxMoves : Nat
  completedTasks : List (List Char × List Char)
  notes : List Char
deriving DecidableEq

/-- The statistics record as initialised at the top of dailyRunner. -/
def initStats : RunStats :=
  { inboxAdds := 0, listDeleted := 0, listCreated := 0, inboxMoves := 0,
    completedTasks := [], notes := [] }

/-- The note written by rolloverProcess when the execution budget is
exceeded. -/
def pauseNote : List Char :=
  "Run paused during rollover due to execution timeout.".data

/-- Environment of one rolloverProcess invocation: the fetched lists, the
oracles for the per-list migration count and completed-task extraction,
the wall clock sampled at the i-th loop check (milliseconds since run
start), and the configuration values. -/
structure RolloverEnv where
  allLists : List TList
  migratedCount : Nat → Nat
  completedOf : Nat → List (List Char × List Char)
  elapsedMillis : Nat → Nat
  timeoutSeconds : Nat
  dailyPfx : List Char
  inboxListName : List Char
  newListId : Nat

/-- The statistics mutation of one iteration of the stale-list loop in
rolloverProcess: accumulate the migrated count into inboxAdds, record the
completed tasks, and count the deletion. -/
def sweepStep (env : RolloverEnv) (s : RunStats) (l : TList) : RunStats :=
  { s with inboxAdds := s.inboxAdds + env.migratedCount l.id,
           completedTasks := s.completedTasks ++ env.completedOf l.id,
           listDeleted := s.listDeleted + 1 }

/-- Embeds the stale-list loop of rolloverProcess: before each list the
elapsed time is compared against the budget (the source divides the
millisecond difference by 1000 and compares against the configured
seconds); on excess the loop stops with the pause note, otherwise the
list is processed and deleted. Returns the final statistics and the
lists actually processed. -/
def sweepLoop (env : RolloverEnv) : Nat → List TList → RunStats → RunStats × List TList
  | _, [], stats => (stats, [])
  | i, l :: rest, stats =>
    if env.timeoutSeconds * 1000 < env.elapsedMillis i then
      ({ stats with notes := pauseNote }, [])
    else
      let r := sweepLoop env (i + 1) rest (sweepStep env stats l)
      (r.1, l :: r.2)

/-- The computed full title of the daily list for today, built by the
template literal in rolloverProcess from the configured daily prefix and
the formatted date. -/
def todayFullName (env : RolloverEnv) (todayTitle : List Char) : List Char :=
  env.dailyPfx ++ (' ' :: todayTitle)

/-- The stale-list classification of rolloverProcess: the title starts
with the daily prefix and differs from the computed today title. -/
def isStale (env : RolloverEnv) (full : List Char) (l : TList) : Bool :=
  (dropPfx env.dailyPfx l.title).isSome && !(decide (l.title = full))

/-- Result of a successful rolloverProcess invocation: the mutated
statistics, the resolved list ids, the stale lists that were migrated
and deleted, and the lists created. -/
structure RolloverResult where
  stats : RunStats
  todayListId : Nat
  inboxId : Nat
  processed : List TList
  created : List TList
deriving DecidableEq

/-- Embeds rolloverProcess from main.js: resolve the inbox by title
(throwing when absent), classify stale lists, run the sweep loop, and
create the today list only when no list with the computed title exists. -/
def rolloverProcess (env : RolloverEnv) (todayTitle : List Char) (stats : RunStats) :
    Except (List Char) RolloverResult :=
  let full := todayFullName env todayTitle
  match env.allLists.find? (fun l => decide (l.title = env.inboxListName)) with
  | none => Except.error ("Inbox list not found.".data)
  | some inboxList =>
    let todayList := env.allLists.find? (fun l => decide (l.title = full))
    let staleLists := env.allLists.filter (isStale env full)
    let r := sweepLoop env 0 staleLists stats
    match todayList with
    | some tl =>
      Except.ok { stats := r.1, todayListId := tl.id, inboxId := inboxList.id,
                  processed := r.2, created := [] }
    | none =>
      Except.ok { stats := { r.1 with listCreated := r.1.listCreated + 1 },
                  todayListId := env.newListId, inboxId := inboxList.id,
                  processed := r.2,
                  created := [{ id := env.newListId, title := full }] }

/-! The dailyRunner orchestrator, from main.js: locking, the single
try/catch boundary and the finally block. The phases inside the try are
oracles that return the mutated statistics together with an optional
thrown error message; LoggingSheetUtil.logRun swallows its own failures
in the source and is therefore modelled as never throwing. -/

/-- The fatal marker written into the notes by the catch block of
dailyRunner. -/
def fatalNote (msg : List Char) : List Char := "FATAL: ".data ++ msg

/-- Subject of the failure notification email sent by the catch block. -/
def failSubject : List Char := "Google Tasks Script has failed!".data

/-- Environment of one dailyRunner invocation. Each throwing phase yields
the statistics as mutated up to the throw point and an optional error
message. -/
structure DailyEnv where
  lockAcquired : Bool
  rollover : RunStats → RunStats × Option (List Char)
  autoMove : Bool
  inbox : RunStats → RunStats × Option (List Char)
  digestDay : Bool
  digestErr : Option (List Char)

/-- Observable outcome of one dailyRunner invocation: which phases ran,
every statistics record handed to the log sink in order, the subjects of
the emails sent, and whether the lock was released. -/
structure DailyOutcome where
  ranRollover : Bool
  ranInbox : Bool
  ranDigest : Bool
  logged : List RunStats
  emails : List (List Char)
  lockReleased : Bool
deriving DecidableEq

/-- Embeds dailyRunner from main.js: abort silently when the lock is not
acquired; otherwise run rollover, conditionally the inbox sweep, log the
run, conditionally the digest; one catch block overwrites the notes with
the fatal marker, logs the partial statistics and sends the failure
email; the finally block always releases the lock. -/
def dailyRunner (env : DailyEnv) : DailyOutcome :=
  if env.lockAcquired = false then
    { ranRollover := false, ranInbox := false, ranDigest := false,
      logged := [], emails := [], lockReleased := false }
  else
    let r1 := env.rollover initStats
    match r1.2 with
    | some msg =>
      { ranRollover := true, ranInbox := false, ranDigest := false,
        logged := [{ r1.1 with notes := fatalNote msg }],
        emails := [failSubject], lockReleased := true }
    | none =>
      let r2 := if env.autoMove then env.inbox r1.1 else (r1.1, none)
      match r2.2 with
      | some msg =>
        { ranRollover := true, ranInbox := env.autoMove, ranDigest := false,
          logged := [{ r2.1 with notes := fatalNote msg }],
          emails := [failSubject], lockReleased := true }
      | none =>
        match (if env.digestDay then env.digestErr else none) with
        | some msg =>
          { ranRollover := true, ranInbox := env.autoMove, ranDigest := true,
            logged := [r2.1, { r2.1 with notes := fatalNote msg }],
            emails := [failSubject], lockReleased := true }
        | none =>
          { ranRollover := true, ranInbox := env.autoMove,
            ranDigest := env.digestDay,
            logged := [r2.1], emails := [], lockReleased := true }

/-- The first error raised inside the try block of dailyRunner, paired
with the statistics as populated at the moment of the throw. -/
def firstError (env : DailyEnv) : Option (RunStats × List Char) :=
  let r1 := env.rollover initStats
  match r1.2 with
  | some msg => some (r1.1, msg)
  | none =>
    let r2 := if env.autoMove then env.inbox r1.1 else (r1.1, none)
    match r2.2 with
    | some msg => some (r2.1, msg)
    | none =>
      match (if env.digestDay then env.digestErr else none) with
      | some msg => some (r2.1, msg)
      | none => none

/-! Concrete fixtures used by the witness theorems. -/

/-- A task carrying an email-type provenance link, for the C5 witness. -/
def wEmailTask : GTask :=
  { id := 1, title := "Call Bob".data, notes := "memo".data, status := needsActionStr,
    due := [], recurrence := [],
    links := some [{ type := emailTypeStr, link := "https://mail.example/x1".data }] }

/-- A recurring task due today, for the C7 witness. -/
def wRecurringTask : GTask :=
  { id := 2, title := "Gym".data, notes := [], status := needsActionStr,
    due := "2025-07-10T00:00:00Z".data, recurrence := "weekly".data, links := none }

/-- A non-recurring task due today late in the day, for the C8 witness. -/
def wDueTask : GTask :=
  { id := 3, title := "Pay rent".data, notes := [], status := needsActionStr,
    due := "2025-07-10T23:59:00Z".data, recurrence := [], links := none }

/-- A completed non-recurring task due today, for the C10 witness. -/
def wDoneTask : GTask :=
  { id := 4, title := "Ship box".data, notes := [], status := completedStr,
    due := "2025-07-10T00:00:00Z".data, recurrence := [], links := none }

/-- A concrete inbox enumeration for the inbox-sweep witnesses. -/
def wInboxTasks : List GTask := [wRecurringTask, wDueTask, wDoneTask]

/-- The formatted today string matching the fixtures above. -/
def wToday : List Char := "2025-07-10".data

/-- A rollover environment with five stale lists whose clock exceeds the
budget before the third list, for the C3 witness. -/
def wSweepEnv : RolloverEnv :=
  { allLists :=
      [ { id := 0, title := "Inbox".data },
        { id := 1, title := "[Daily] July 1, 2025".data },
        { id := 2, title := "[Daily] July 2, 2025".data },
        { id := 3, title := "[Daily] July 3, 2025".data },
        { id := 4, title := "[Daily] July 4, 2025".data },
        { id := 5, title := "[Daily] July 5, 2025".data } ],
    migratedCount := fun i => i,
    completedOf := fun _ => [],
    elapsedMillis := fun i => if i < 2 then 1000 else 400000,
    timeoutSeconds := 270,
    dailyPfx := "[Daily]".data,
    inboxListName := "Inbox".data,
    newListId := 99 }

/-- A rollover environment holding only the inbox, for the C4 witness. -/
def wCreateEnv : RolloverEnv :=
  { allLists := [ { id := 0, title := "Inbox".data } ],
    migratedCount := fun _ => 0,
    completedOf := fun _ => [],
    elapsedMillis := fun _ => 0,
    timeoutSeconds := 270,
    dailyPfx := "[Daily]".data,
    inboxListName := "Inbox".data,
    newListId := 7 }

/-- A daily environment whose rollover phase throws after populating a
counter, for the C2 witness. -/
def wFailEnv : DailyEnv :=
  { lockAcquired := true,
    rollover := fun s => ({ s with inboxAdds := 2 }, some ("storage down".data)),
    autoMove := true,
    inbox := fun s => (s, none),
    digestDay := false,
    digestErr := none }

/-- A daily environment whose lock acquisition fails, for the C9
witness. -/
def wLockedEnv : DailyEnv :=
  { lockAcquired := false,
    rollover := fun s => (s, none),
    autoMove := true,
    inbox := fun s => (s, none),
    digestDay := false,
    digestErr := none }

/-! Lemmas about the literal-matching primitives. -/

theorem dropPfx_self (p t : List Char) : dropPfx p (p ++ t) = some t := by
  induction p with
  | nil => rfl
  | cons c cs ih => simp [dropPfx, ih]

theorem dropPfx_eq_append (p : List Char) :
    ∀ s t : List Char, dropPfx p s = some t → s = p ++ t := by
  induction p with
  | nil => intro s t h; simp [dropPfx] at h; simp [h]
  | cons c cs ih =>
    intro s t h
    cases s with
    | nil => simp [dropPfx] at h
    | cons d ds =>
      by_cases hc : c = d
      · subst hc
        simp only [dropPfx, if_pos rfl] at h
        simp [ih ds t h]
      · simp [dropPfx, hc] at h

theorem dropPfx_append_long (p : List Char) :
    ∀ s r : List Char, p.length ≤ s.length →
      dropPfx p (s ++ r) = (dropPfx p s).map (fun t => t ++ r) := by
  induction p with
  | nil => intro s r _; simp [dropPfx]
  | cons c cs ih =>
    intro s r h
    cases s with
    | nil => simp at h
    | cons d ds =>
      simp only [List.cons_append, dropPfx, List.append_eq]
      by_cases hc : c = d
      · rw [if_pos hc, if_pos hc, ih ds r (by simpa using h)]
      · rw [if_neg hc, if_neg hc]; rfl

theorem dropPfx_append_short (p : List Char) :
    ∀ s r t : List Char, dropPfx p (s ++ r) = some t → s.length ≤ p.length →
      p.take s.length = s ∧ dropPfx (p.drop s.length) r = some t := by
  intro s
  induction s generalizing p with
  | nil => intro r t h _; simpa using h
  | cons d ds ih =>
    intro r t h hlen
    cases p with
    | nil => simp at hlen
    | cons c cs =>
      simp only [List.cons_append, dropPfx] at h
      by_cases hc : c = d
      · rw [if_pos hc] at h
        obtain ⟨h1, h2⟩ := ih cs r t h (by simpa using hlen)
        subst hc
        constructor
        · simp [List.take, h1]
        · simpa using h2
      · rw [if_neg hc] at h; exact absurd h (by simp)

theorem rolloStem_length : rolloStem.length = 16 := by decide

theorem rolloStem_cons : rolloStem = 'R' :: "ollover Count: ".data := rfl

theorem rolloStem_no_border :
    ∀ j : Fin 16, 0 < j.val → rolloStem.take (16 - j.val) ≠ rolloStem.drop j.val := by
  decide

theorem rolloStem_drop_head_not_nl :
    ∀ j : Fin 16, (rolloStem.drop j.val).head? ≠ some '\n' := by
  decide

theorem isDigit_R : Char.isDigit 'R' = false := by decide

theorem isDigit_nl : Char.isDigit '\n' = false := by decide

theorem matchAt_none (s : List Char) (h : dropPfx rolloStem s = none) :
    matchAt s = none := by
  unfold matchAt
  rw [h]

theorem matchAt_eq (s rest : List Char) (h : dropPfx rolloStem s = some rest) :
    matchAt s = (match rest.takeWhile Char.isDigit with
      | [] => none
      | d :: ds => some (d :: ds, rest.dropWhile Char.isDigit)) := by
  unfold matchAt
  rw [h]

theorem matchAt_none_of_head (c : Char) (cs : List Char) (h : c ≠ 'R') :
    matchAt (c :: cs) = none := by
  apply matchAt_none
  rw [rolloStem_cons]
  simp only [dropPfx]
  rw [if_neg (fun hh => h hh.symm)]

theorem dropPfx_head_ne (b c : Char) (qs t : List Char) (h : b ≠ c) :
    dropPfx (b :: qs) (c :: t) = none := by
  simp [dropPfx, h]

/-- A run of the stem cannot start strictly inside the stem: the stem has
no non-trivial border. -/
theorem dropPfx_stemdrop_stem (j : Nat) (h0 : 0 < j) (h16 : j < 16) (x : List Char) :
    dropPfx (rolloStem.drop j) (rolloStem ++ x) = none := by
  cases hdp : dropPfx (rolloStem.drop j) (rolloStem ++ x) with
  | none => rfl
  | some u =>
    exfalso
    have heq := dropPfx_eq_append _ _ _ hdp
    have hdl : (rolloStem.drop j).length = 16 - j := by
      rw [List.length_drop, rolloStem_length]
    have h1 : (rolloStem ++ x).take (16 - j) = rolloStem.take (16 - j) := by
      apply List.take_append_of_le_length
      rw [rolloStem_length]; omega
    have h2 : (rolloStem.drop j ++ u).take (16 - j) = rolloStem.drop j :=
      List.take_left' hdl
    rw [heq, h2] at h1
    exact rolloStem_no_border ⟨j, h16⟩ h0 h1.symm

theorem dropPfx_stemdrop_nl (j : Nat) (h16 : j < 16) (t : List Char) :
    dropPfx (rolloStem.drop j) ('\n' :: t) = none := by
  cases hq : rolloStem.drop j with
  | nil =>
    exfalso
    have : (rolloStem.drop j).length = 16 - j := by
      rw [List.length_drop, rolloStem_length]
    rw [hq] at this
    simp at this
    omega
  | cons b qs =>
    apply dropPfx_head_ne
    intro hb
    have := rolloStem_drop_head_not_nl ⟨j, h16⟩
    rw [hq, hb] at this
    simp at this

theorem takeWhile_nl_cons (t : List Char) :
    (('\n' :: t).takeWhile Char.isDigit) = [] := by
  simp [List.takeWhile_cons, isDigit_nl]

theorem takeWhile_stem_append (x : List Char) :
    ((rolloStem ++ x).takeWhile Char.isDigit) = [] := by
  rw [rolloStem_cons]
  simp [List.takeWhile_cons, isDigit_R]

/-- Straddle lemma: a position where the regex does not match keeps not
matching after appending r, provided r neither starts with digits nor
completes a proper prefix of the stem. -/
theorem matchAt_append_none (s r : List Char) (hs : s ≠ []) (hm : matchAt s = none)
    (hr : r.takeWhile Char.isDigit = [])
    (hb : ∀ j, 0 < j → j < 16 → dropPfx (rolloStem.drop j) r = none) :
    matchAt (s ++ r) = none := by
  by_cases h16 : 16 ≤ s.length
  · have hlen : rolloStem.length ≤ s.length := by rw [rolloStem_length]; omega
    have hlong := dropPfx_append_long rolloStem s r hlen
    cases hdp : dropPfx rolloStem s with
    | none =>
      rw [hdp] at hlong
      exact matchAt_none _ (by simpa using hlong)
    | some tail =>
      rw [hdp] at hlong
      simp only [Option.map_some'] at hlong
      have htw : tail.takeWhile Char.isDigit = [] := by
        rw [matchAt_eq s tail hdp] at hm
        cases htt : tail.takeWhile Char.isDigit with
        | nil => rfl
        | cons a b => rw [htt] at hm; exact absurd hm (by simp)
      have htr : (tail ++ r).takeWhile Char.isDigit = [] := by
        cases tail with
        | nil => simpa using hr
        | cons a b =>
          have ha : a.isDigit = false := by
            rw [List.takeWhile_cons] at htw
            by_cases hd : a.isDigit
            · rw [if_pos hd] at htw; exact absurd htw (by simp)
            · simpa using hd
          simp [List.takeWhile_cons, ha]
      rw [matchAt_eq (s ++ r) (tail ++ r) hlong, htr]
  · have hlen : s.length ≤ rolloStem.length := by rw [rolloStem_length]; omega
    cases hdp : dropPfx rolloStem (s ++ r) with
    | none => exact matchAt_none _ hdp
    | some t =>
      exfalso
      obtain ⟨_, h2⟩ := dropPfx_append_short rolloStem s r t hdp hlen
      have hpos : 0 < s.length := List.length_pos.mpr hs
      rw [hb s.length hpos (by omega)] at h2
      exact absurd h2 (by simp)

/-! Counting fragments and locating the first one. -/

theorem fragmentCount_cons_zero {c : Char} {cs : List Char}
    (h : fragmentCount (c :: cs) = 0) :
    matchAt (c :: cs) = none ∧ fragmentCount cs = 0 := by
  rw [fragmentCount] at h
  constructor
  · cases hmm : matchAt (c :: cs) with
    | none => rfl
    | some v => rw [hmm] at h; simp at h
  · cases hmm : matchAt (c :: cs) with
    | none => rw [hmm] at h; simpa using h
    | some v => rw [hmm] at h; simp at h

theorem fragmentCount_append (xs ys : List Char) :
    fragmentCount (xs ++ ys) = countFrom xs ys + fragmentCount ys := by
  induction xs with
  | nil => simp [countFrom, fragmentCount]
  | cons c cs ih =>
    simp only [List.cons_append, fragmentCount, countFrom, List.append_eq]
    rw [ih]
    omega

theorem countFrom_zero (xs r : List Char) (h : fragmentCount xs = 0)
    (hr : r.takeWhile Char.isDigit = [])
    (hb : ∀ j, 0 < j → j < 16 → dropPfx (rolloStem.drop j) r = none) :
    countFrom xs r = 0 := by
  induction xs with
  | nil => rfl
  | cons c cs ih =>
    obtain ⟨hm, hcs⟩ := fragmentCount_cons_zero h
    have hnone : matchAt ((c :: cs) ++ r) = none :=
      matchAt_append_none (c :: cs) r (by simp) hm hr hb
    rw [countFrom]
    rw [show c :: (cs ++ r) = (c :: cs) ++ r from rfl, hnone]
    simpa using ih hcs

theorem findRollover_eq_none (xs : List Char) (h : fragmentCount xs = 0) :
    findRollover xs = none := by
  induction xs with
  | nil => rfl
  | cons c cs ih =>
    obtain ⟨hm, hcs⟩ := fragmentCount_cons_zero h
    rw [findRollover, hm, ih hcs]
    rfl

theorem findRollover_append_zero (xs r : List Char) (hcf : countFrom xs r = 0) :
    findRollover (xs ++ r) =
      (findRollover r).map (fun v => (xs ++ v.1, v.2.1, v.2.2)) := by
  induction xs with
  | nil =>
    simp only [List.nil_append]
    cases findRollover r with
    | none => rfl
    | some v => simp
  | cons c cs ih =>
    rw [countFrom] at hcf
    have hm : matchAt (c :: (cs ++ r)) = none := by
      cases hmm : matchAt (c :: (cs ++ r)) with
      | none => rfl
      | some v => rw [hmm] at hcf; simp at hcf
    have hcs : countFrom cs r = 0 := by
      rw [hm] at hcf; simpa using hcf
    rw [show (c :: cs) ++ r = c :: (cs ++ r) from rfl]
    rw [findRollover, hm, ih hcs]
    cases findRollover r with
    | none => rfl
    | some v => simp

/-! Behaviour of matchAt and findRollover at the fragment itself. -/

theorem takeWhile_append_all (p : Char → Bool) (xs ys : List Char)
    (h : ∀ c ∈ xs, p c = true) (hy : ys.takeWhile p = []) :
    (xs ++ ys).takeWhile p = xs := by
  induction xs with
  | nil => simpa using hy
  | cons c cs ih =>
    have hc : p c = true := h c (by simp)
    simp only [List.cons_append, List.takeWhile_cons, hc, if_true]
    rw [ih (fun d hd => h d (by simp [hd]))]

theorem dropWhile_eq_self_of_takeWhile_nil (p : Char → Bool) (ys : List Char)
    (hy : ys.takeWhile p = []) : ys.dropWhile p = ys := by
  cases ys with
  | nil => rfl
  | cons c cs =>
    rw [List.takeWhile_cons] at hy
    by_cases hc : p c
    · rw [if_pos hc] at hy; exact absurd hy (by simp)
    · simp [List.dropWhile_cons, hc]

theorem dropWhile_append_all (p : Char → Bool) (xs ys : List Char)
    (h : ∀ c ∈ xs, p c = true) (hy : ys.takeWhile p = []) :
    (xs ++ ys).dropWhile p = ys := by
  induction xs with
  | nil => simpa using dropWhile_eq_self_of_takeWhile_nil p ys hy
  | cons c cs ih =>
    have hc : p c = true := h c (by simp)
    simp only [List.cons_append, List.dropWhile_cons, hc, if_true]
    exact ih (fun d hd => h d (by simp [hd]))

theorem matchAt_stem (ds S : List Char) (hne : ds ≠ [])
    (hd : ∀ c ∈ ds, c.isDigit = true) (hS : S.takeWhile Char.isDigit = []) :
    matchAt (rolloStem ++ (ds ++ S)) = some (ds, S) := by
  rw [matchAt_eq _ (ds ++ S) (dropPfx_self rolloStem (ds ++ S))]
  rw [takeWhile_append_all Char.isDigit ds S hd hS,
      dropWhile_append_all Char.isDigit ds S hd hS]
  cases ds with
  | nil => exact absurd rfl hne
  | cons d dtl => rfl

theorem findRollover_stem (ds S : List Char) (hne : ds ≠ [])
    (hd : ∀ c ∈ ds, c.isDigit = true) (hS : S.takeWhile Char.isDigit = []) :
    findRollover (rolloStem ++ (ds ++ S)) = some ([], ds, S) := by
  have hm := matchAt_stem ds S hne hd hS
  rw [show rolloStem ++ (ds ++ S) = 'R' :: ("ollover Count: ".data ++ (ds ++ S))
      from rfl] at hm ⊢
  rw [findRollover, hm]

theorem matchAt_stemdrop (j : Nat) (h0 : 0 < j) (h16 : j < 16) (r : List Char) :
    matchAt (rolloStem.drop j ++ r) = none := by
  cases hdp : dropPfx rolloStem (rolloStem.drop j ++ r) with
  | none => exact matchAt_none _ hdp
  | some t =>
    exfalso
    have hlen : (rolloStem.drop j).length ≤ rolloStem.length := by
      rw [List.length_drop, rolloStem_length]; omega
    obtain ⟨h1, _⟩ := dropPfx_append_short rolloStem (rolloStem.drop j) r t hdp hlen
    have hdl : (rolloStem.drop j).length = 16 - j := by
      rw [List.length_drop, rolloStem_length]
    rw [hdl] at h1
    exact rolloStem_no_border ⟨j, h16⟩ h0 h1

theorem countFrom_zero_of_suffix (xs r : List Char)
    (h : ∀ s, s ≠ [] → s <:+ xs → matchAt (s ++ r) = none) :
    countFrom xs r = 0 := by
  induction xs with
  | nil => rfl
  | cons c cs ih =>
    rw [countFrom]
    rw [show c :: (cs ++ r) = (c :: cs) ++ r from rfl,
        h (c :: cs) (by simp) (List.suffix_refl _)]
    simp only [Option.isSome_none, Bool.false_eq_true, if_false, Nat.zero_add]
    exact ih (fun s hs hsuf => h s hs (hsuf.trans (List.suffix_cons c cs)))

theorem countFrom_stem (ds S : List Char) (hne : ds ≠ [])
    (hd : ∀ c ∈ ds, c.isDigit = true) (hS : S.takeWhile Char.isDigit = []) :
    countFrom rolloStem (ds ++ S) = 1 := by
  have hm := matchAt_stem ds S hne hd hS
  rw [rolloStem_cons, countFrom]
  have h1 : matchAt ('R' :: ("ollover Count: ".data ++ (ds ++ S))) = some (ds, S) := by
    rw [show ('R' :: ("ollover Count: ".data ++ (ds ++ S)))
        = rolloStem ++ (ds ++ S) from rfl]
    exact hm
  rw [h1]
  simp only [Option.isSome_some, if_true]
  have h0 : countFrom ("ollover Count: ".data) (ds ++ S) = 0 := by
    apply countFrom_zero_of_suffix
    intro s hs hsuf
    obtain ⟨pre, hpre⟩ := hsuf
    have hsplit : rolloStem = ('R' :: pre) ++ s := by
      rw [rolloStem_cons, ← hpre]
      exact rfl
    have hsdrop : s = rolloStem.drop (pre.length + 1) := by
      rw [hsplit]
      exact (List.drop_left' (by simp)).symm
    have hlt : pre.length + 1 < 16 := by
      have h2 : (('R' :: pre) ++ s).length = 16 := by
        rw [← hsplit]; exact rolloStem_length
      have h3 : 0 < s.length := List.length_pos.mpr hs
      simp [List.length_append] at h2
      omega
    rw [hsdrop]
    exact matchAt_stemdrop (pre.length + 1) (by omega) hlt (ds ++ S)
  rw [h0]

theorem countFrom_digits (ds S : List Char) (hd : ∀ c ∈ ds, c.isDigit = true) :
    countFrom ds S = 0 := by
  induction ds with
  | nil => rfl
  | cons c cs ih =>
    rw [countFrom]
    have hc : c ≠ 'R' := by
      intro hcr
      have := hd c (by simp)
      rw [hcr] at this
      rw [isDigit_R] at this
      exact absurd this (by simp)
    rw [matchAt_none_of_head c (cs ++ S) hc]
    simpa using ih (fun d hdd => hd d (by simp [hdd]))

/-- The full characterization of a notes value holding exactly one
fragment: the fragment is found with the surrounding context, and the
fragment position count is one. -/
theorem findRollover_decomp (P ds S : List Char) (hP : fragmentCount P = 0)
    (hne : ds ≠ []) (hd : ∀ c ∈ ds, c.isDigit = true)
    (hS : S.takeWhile Char.isDigit = []) (hfS : fragmentCount S = 0) :
    findRollover (P ++ (rolloStem ++ (ds ++ S))) = some (P, ds, S) ∧
    fragmentCount (P ++ (rolloStem ++ (ds ++ S))) = 1 := by
  have hcf : countFrom P (rolloStem ++ (ds ++ S)) = 0 := by
    apply countFrom_zero P _ hP (takeWhile_stem_append (ds ++ S))
    intro j h0 h16
    exact dropPfx_stemdrop_stem j h0 h16 (ds ++ S)
  constructor
  · rw [findRollover_append_zero P _ hcf,
        findRollover_stem ds S hne hd hS]
    simp
  · rw [fragmentCount_append, hcf, fragmentCount_append,
        countFrom_stem ds S hne hd hS, fragmentCount_append,
        countFrom_digits ds S hd, hfS]

/-! Decimal rendering and parsing round-trip. -/

theorem renderNat_ne_nil (n : Nat) : renderNat n ≠ [] := by
  rw [renderNat]
  split <;> simp

theorem renderNat_digits (n : Nat) : ∀ c ∈ renderNat n, c.isDigit = true := by
  induction n using Nat.strong_induction_on with
  | _ n ih =>
    rw [renderNat]
    split
    · intro c hc
      simp only [List.mem_singleton] at hc
      subst hc
      next h => interval_cases n <;> decide
    · next h =>
      intro c hc
      rcases List.mem_append.mp hc with h1 | h1
      · exact ih (n / 10) (Nat.div_lt_self (by omega) (by omega)) c h1
      · simp only [List.mem_singleton] at h1
        subst h1
        have h10 : n % 10 < 10 := Nat.mod_lt _ (by omega)
        generalize hq : n % 10 = m at h10
        interval_cases m <;> decide

theorem parseDigits_append_one (xs : List Char) (c : Char) :
    parseDigits (xs ++ [c]) = parseDigits xs * 10 + (c.toNat - 48) := by
  simp [parseDigits, List.foldl_append]

theorem parseDigits_renderNat (n : Nat) : parseDigits (renderNat n) = n := by
  induction n using Nat.strong_induction_on with
  | _ n ih =>
    rw [renderNat]
    split
    · next h => interval_cases n <;> decide
    · next h =>
      rw [parseDigits_append_one,
          ih (n / 10) (Nat.div_lt_self (by omega) (by omega))]
      have h10 : n % 10 < 10 := Nat.mod_lt _ (by omega)
      have hd : (Nat.digitChar (n % 10)).toNat - 48 = n % 10 := by
        generalize hq : n % 10 = m at h10
        interval_cases m <;> decide
      rw [hd]
      omega

/-! The evolution of the notes under repeated rollover migration. -/

theorem bumpRollover_insert (notes : List Char) (h : fragmentCount notes = 0) :
    bumpRollover notes =
      notes ++ ((if notes = [] then [] else nlnl) ++ (rolloStem ++ ['1'])) := by
  rw [bumpRollover, findRollover_eq_none notes h]

theorem bumpRollover_found (notes P ds S : List Char)
    (hfind : findRollover notes = some (P, ds, S)) :
    bumpRollover notes = P ++ (rolloStem ++ (renderNat (parseDigits ds + 1) ++ S)) := by
  rw [bumpRollover, hfind]

theorem fragmentCount_sep_zero (notes : List Char) (h : fragmentCount notes = 0) :
    fragmentCount (notes ++ (if notes = [] then [] else nlnl)) = 0 := by
  by_cases hn : notes = []
  · subst hn; rfl
  · rw [if_neg hn, fragmentCount_append]
    have h2 : fragmentCount nlnl = 0 := by decide
    have h1 : countFrom notes nlnl = 0 := by
      apply countFrom_zero notes nlnl h
      · exact takeWhile_nl_cons ['\n']
      · intro j _ h16
        exact dropPfx_stemdrop_nl j h16 ['\n']
    omega

theorem renderNat_one : renderNat 1 = ['1'] := by
  rw [renderNat]
  norm_num
  decide

theorem bumpRollover_iterate (notes : List Char) (h : fragmentCount notes = 0) :
    ∀ N, 1 ≤ N →
      Nat.iterate bumpRollover N notes =
        (notes ++ (if notes = [] then [] else nlnl)) ++ (rolloStem ++ renderNat N) := by
  intro N
  induction N with
  | zero => omega
  | succ k ihk =>
    intro _
    by_cases hk : k = 0
    · subst hk
      rw [show Nat.iterate bumpRollover 1 notes = bumpRollover notes from rfl]
      rw [bumpRollover_insert notes h, renderNat_one]
      simp [List.append_assoc]
    · have hk1 : 1 ≤ k := by omega
      rw [Function.iterate_succ_apply', ihk hk1]
      have hA : fragmentCount (notes ++ (if notes = [] then [] else nlnl)) = 0 :=
        fragmentCount_sep_zero notes h
      have hd := findRollover_decomp (notes ++ (if notes = [] then [] else nlnl))
        (renderNat k) [] hA (renderNat_ne_nil k) (renderNat_digits k) rfl rfl
      have hfind : findRollover
          ((notes ++ (if notes = [] then [] else nlnl)) ++ (rolloStem ++ renderNat k)) =
          some (notes ++ (if notes = [] then [] else nlnl), renderNat k, []) := by
        have h1 := hd.1
        simpa using h1
      rw [bumpRollover_found _ _ _ _ hfind, parseDigits_renderNat]
      simp

/-- C1: migrating a task N times (N at least 1) through the
rollover-tracking notes update of migrateIncompleteTasks (TaskMigrator),
starting from notes carrying no rollover fragment, yields a notes value
containing exactly one fragment, namely Rollover Count: N, regardless of
the arbitrary fragment-free note content around it; the fragment is
inserted at value 1 preceded by a blank-line separator when the notes
were non-empty, and any notes value holding exactly one fragment of value
k is rewritten in place to value k + 1 by one further migration. -/
theorem C1_rollover_counter (notes : List Char) (N : Nat) (hN : 1 ≤ N)
    (h : fragmentCount notes = 0) :
    fragmentCount (Nat.iterate bumpRollover N notes) = 1 ∧
    findRollover (Nat.iterate bumpRollover N notes) =
      some (notes ++ (if notes = [] then [] else nlnl), renderNat N, []) ∧
    (∀ P k S, fragmentCount P = 0 → S.takeWhile Char.isDigit = [] →
      fragmentCount S = 0 →
      bumpRollover (P ++ (rolloStem ++ (renderNat k ++ S))) =
        P ++ (rolloStem ++ (renderNat (k + 1) ++ S))) := by
  have hiter := bumpRollover_iterate notes h N hN
  have hA : fragmentCount (notes ++ (if notes = [] then [] else nlnl)) = 0 :=
    fragmentCount_sep_zero notes h
  have hd := findRollover_decomp (notes ++ (if notes = [] then [] else nlnl))
    (renderNat N) [] hA (renderNat_ne_nil N) (renderNat_digits N) rfl rfl
  refine ⟨?_, ?_, ?_⟩
  · rw [hiter]
    have h2 := hd.2
    simpa using h2
  · rw [hiter]
    have h1 := hd.1
    simpa using h1
  · intro P k S hP hS hfS
    have hdk := findRollover_decomp P (renderNat k) S hP (renderNat_ne_nil k)
      (renderNat_digits k) hS hfS
    rw [bumpRollover_found _ _ _ _ hdk.1, parseDigits_renderNat]

/-- Witness for C1 at a concrete input: two migrations of a task whose
notes start as the fragment-free text abc. -/
theorem C1_rollover_counter_witness :
    1 ≤ 2 ∧ fragmentCount ("abc".data) = 0 ∧
    fragmentCount (Nat.iterate bumpRollover 2 ("abc".data)) = 1 := by
  refine ⟨by decide, by decide, ?_⟩
  exact (C1_rollover_counter ("abc".data) 2 (by decide) (by decide)).1

/-! Lemmas about TaskService.move. -/

theorem move_eq_moveBase_or (t : GTask) :
    TaskService.move t = TaskService.moveBase t ∨
    ∃ ls l, t.links = some ls ∧
      ls.find? (fun x => decide (x.type = emailTypeStr)) = some l ∧
      l.link ≠ [] ∧ ¬ l.link <:+: t.notes ∧
      TaskService.move t = { TaskService.moveBase t with
        title := t.title ++ fromEmailTag,
        notes := t.notes ++ (origEmailSep ++ l.link) } := by
  cases hl : t.links with
  | none => left; simp only [TaskService.move, hl]
  | some ls =>
    cases hf : ls.find? (fun x => decide (x.type = emailTypeStr)) with
    | none => left; simp only [TaskService.move, hl, hf]
    | some l =>
      by_cases hc : l.link ≠ [] ∧ ¬ l.link <:+: t.notes
      · right
        refine ⟨ls, l, rfl, hf, hc.1, hc.2, ?_⟩
        simp only [TaskService.move, hl, hf, if_pos hc]
      · left
        simp only [TaskService.move, hl, hf, if_neg hc]

theorem move_links_none (t : GTask) : (TaskService.move t).links = none := by
  rcases move_eq_moveBase_or t with h | ⟨ls, l, _, _, _, _, h⟩ <;> rw [h] <;> rfl

theorem move_of_links_none (u : GTask) (hu : u.links = none) :
    TaskService.move u = TaskService.moveBase u := by
  simp only [TaskService.move, hu]

/-- C5: the email-provenance appendix of TaskService.move is applied at
most once per link. Moving a task twice never duplicates the Original
Email block because the destination task carries no links; and even for
a task still carrying the link, the appendix is skipped exactly when the
link url is already contained in the notes, and one application makes
the url a substring of the notes, so a further application would skip. -/
theorem C5_provenance_at_most_once (t : GTask) :
    (TaskService.move (TaskService.move t)).notes = (TaskService.move t).notes ∧
    (TaskService.move (TaskService.move t)).title = (TaskService.move t).title ∧
    (∀ ls l, t.links = some ls →
      ls.find? (fun x => decide (x.type = emailTypeStr)) = some l →
      l.link <:+: t.notes →
      TaskService.move t = TaskService.moveBase t) ∧
    (∀ ls l, t.links = some ls →
      ls.find? (fun x => decide (x.type = emailTypeStr)) = some l →
      l.link ≠ [] → ¬ l.link <:+: t.notes →
      (TaskService.move t).notes = t.notes ++ (origEmailSep ++ l.link) ∧
      l.link <:+: (TaskService.move t).notes) := by
  refine ⟨?_, ?_, ?_, ?_⟩
  · rw [move_of_links_none (TaskService.move t) (move_links_none t)]
    rfl
  · rw [move_of_links_none (TaskService.move t) (move_links_none t)]
    rfl
  · intro ls l hls hfind hinf
    simp only [TaskService.move, hls, hfind]
    rw [if_neg (fun hc => hc.2 hinf)]
  · intro ls l hls hfind hne hninf
    have hmv : TaskService.move t = { TaskService.moveBase t with
        title := t.title ++ fromEmailTag,
        notes := t.notes ++ (origEmailSep ++ l.link) } := by
      simp only [TaskService.move, hls, hfind]
      rw [if_pos ⟨hne, hninf⟩]
    constructor
    · rw [hmv]
    · rw [hmv]
      show l.link <:+: t.notes ++ (origEmailSep ++ l.link)
      exact ⟨t.notes ++ origEmailSep, [], by simp⟩

/-- Witness for C5 at a concrete task with an email link: the appendix is
added once and a second move leaves title and notes unchanged. -/
theorem C5_provenance_at_most_once_witness :
    (TaskService.move wEmailTask).notes =
      wEmailTask.notes ++ (origEmailSep ++ ("https://mail.example/x1".data)) ∧
    (TaskService.move (TaskService.move wEmailTask)).notes =
      (TaskService.move wEmailTask).notes := by
  constructor
  · exact ((C5_provenance_at_most_once wEmailTask).2.2.2
      [{ type := emailTypeStr, link := "https://mail.example/x1".data }]
      { type := emailTypeStr, link := "https://mail.example/x1".data }
      rfl (by decide) (by decide) (by decide)).1
  · exact (C5_provenance_at_most_once wEmailTask).1

/-- C6: the destination task built by TaskService.move takes title, notes
and due from the source task; the status field is never read or copied,
so the destination starts incomplete (needsAction) regardless of the
source status; id and recurrence of the source are ignored as well. -/
theorem C6_status_not_copied (t : GTask) (s r : List Char) (n : Nat) :
    (TaskService.move t).status = needsActionStr ∧
    TaskService.move { t with status := s } = TaskService.move t ∧
    TaskService.move { t with id := n } = TaskService.move t ∧
    TaskService.move { t with recurrence := r } = TaskService.move t ∧
    (TaskService.move t).due = (if t.due = [] then [] else t.due) ∧
    (t.links = none →
      (TaskService.move t).title = t.title ∧ (TaskService.move t).notes = t.notes) := by
  refine ⟨?_, ?_, ?_, ?_, ?_, ?_⟩
  · rcases move_eq_moveBase_or t with h | ⟨ls, l, _, _, _, _, h⟩ <;> rw [h] <;> rfl
  · cases t; rfl
  · cases t; rfl
  · cases t; rfl
  · rcases move_eq_moveBase_or t with h | ⟨ls, l, _, _, _, _, h⟩ <;> rw [h] <;> rfl
  · intro hl
    rw [move_of_links_none t hl]
    exact ⟨rfl, rfl⟩

/-- Witness for C6 at a concrete completed task: the moved copy is
incomplete, changing the source status does not change the destination,
and title and notes are taken verbatim when no links are present. -/
theorem C6_status_not_copied_witness :
    (TaskService.move wDoneTask).status = needsActionStr ∧
    TaskService.move { wDoneTask with status := needsActionStr } =
      TaskService.move wDoneTask ∧
    (TaskService.move wDoneTask).title = wDoneTask.title :=
  ⟨(C6_status_not_copied wDoneTask needsActionStr [] 0).1,
   (C6_status_not_copied wDoneTask needsActionStr [] 0).2.1,
   ((C6_status_not_copied wDoneTask needsActionStr [] 0).2.2.2.2.2 rfl).1⟩

/-! Lemmas about the inbox sweep. -/

theorem shouldMove_of_recurrence (today : List Char) (t : GTask)
    (h : t.recurrence ≠ []) : shouldMove today t = false := by
  unfold shouldMove
  rw [if_pos (Or.inr h)]

theorem shouldMove_of_no_due (today : List Char) (t : GTask)
    (h : t.due = []) : shouldMove today t = false := by
  unfold shouldMove
  rw [if_pos (Or.inl h)]

theorem shouldMove_eligible (today : List Char) (t : GTask)
    (h1 : t.due ≠ []) (h2 : t.recurrence = []) :
    shouldMove today t = decide (t.due.take 10 = today) := by
  unfold shouldMove
  rw [if_neg (fun hc => hc.elim (fun hd => h1 hd) (fun hr => hr h2))]

theorem processInboxTasks_eq (tasks : List GTask) (today : List Char) :
    processInboxTasks tasks today =
      (tasks.filter (shouldMove today), (tasks.filter (shouldMove today)).length) := by
  induction tasks with
  | nil => rfl
  | cons t ts ih =>
    simp only [processInboxTasks, ih]
    by_cases h : shouldMove today t = true
    · simp [List.filter_cons, h]
    · simp [List.filter_cons, h]

/-- C7: the inbox sweep of processInboxTasks never relocates a task with
a non-empty recurrence rule, irrespective of its due date, and never
relocates a task with no due value. -/
theorem C7_recurring_excluded (tasks : List GTask) (today : List Char) (t : GTask) :
    (t.recurrence ≠ [] → ¬ t ∈ (processInboxTasks tasks today).1) ∧
    (t.due = [] → ¬ t ∈ (processInboxTasks tasks today).1) := by
  constructor
  · intro hr hmem
    rw [processInboxTasks_eq] at hmem
    have := (List.mem_filter.mp hmem).2
    rw [shouldMove_of_recurrence today t hr] at this
    exact absurd this (by simp)
  · intro hd hmem
    rw [processInboxTasks_eq] at hmem
    have := (List.mem_filter.mp hmem).2
    rw [shouldMove_of_no_due today t hd] at this
    exact absurd this (by simp)

/-- Witness for C7: the recurring fixture task due today is not moved. -/
theorem C7_recurring_excluded_witness :
    ¬ wRecurringTask ∈ (processInboxTasks wInboxTasks wToday).1 :=
  (C7_recurring_excluded wInboxTasks wToday wRecurringTask).1 (by decide)

/-- C8: for an eligible task (a due value is present and no recurrence
rule), processInboxTasks relocates it exactly when the first ten
characters of the due timestamp, its calendar-date component, equal the
formatted today string; the two timestamps of the spec example share the
date component 2025-07-10. -/
theorem C8_date_only (tasks : List GTask) (today : List Char) (t : GTask)
    (h1 : t.due ≠ []) (h2 : t.recurrence = []) :
    (t ∈ (processInboxTasks tasks today).1 ↔ t ∈ tasks ∧ t.due.take 10 = today) ∧
    ("2025-07-10T23:59:00Z".data.take 10 = "2025-07-10".data) ∧
    ("2025-07-10T00:00:00Z".data.take 10 = "2025-07-10".data) := by
  refine ⟨?_, by decide, by decide⟩
  rw [processInboxTasks_eq]
  simp only [List.mem_filter]
  rw [shouldMove_eligible today t h1 h2]
  simp

/-- Witness for C8: the fixture task due late on 2025-07-10 is moved on
that date. -/
theorem C8_date_only_witness :
    wDueTask ∈ (processInboxTasks wInboxTasks wToday).1 := by
  have h := (C8_date_only wInboxTasks wToday wDueTask (by decide) (by decide)).1
  exact h.mpr ⟨by decide, by decide⟩

/-- C10: a completed inbox task with no recurrence rule whose due date
component equals today is relocated exactly like an incomplete one (the
enumeration applies no status filter), and the moved copy starts
incomplete, so a completed task is reopened by the sweep. -/
theorem C10_completed_reopened (tasks : List GTask) (today : List Char) (t : GTask)
    (ht : t ∈ tasks) (_hst : t.status = completedStr) (hrec : t.recurrence = [])
    (hdue : t.due ≠ []) (hmatch : t.due.take 10 = today) :
    t ∈ (processInboxTasks (listAllTasks tasks) today).1 ∧
    (TaskService.move t).status = needsActionStr := by
  constructor
  · rw [listAllTasks, processInboxTasks_eq]
    refine List.mem_filter.mpr ⟨ht, ?_⟩
    rw [shouldMove_eligible today t hdue hrec]
    simpa using hmatch
  · rcases move_eq_moveBase_or t with h | ⟨ls, l, _, _, _, _, h⟩ <;> rw [h] <;> rfl

/-- Witness for C10: the completed fixture task due today is moved and
its moved copy is incomplete. -/
theorem C10_completed_reopened_witness :
    wDoneTask ∈ (processInboxTasks (listAllTasks wInboxTasks) wToday).1 ∧
    (TaskService.move wDoneTask).status = needsActionStr :=
  C10_completed_reopened wInboxTasks wToday wDoneTask (by decide) (by decide)
    (by decide) (by decide) (by decide)

/-! Lemmas about the stale-list sweep and rolloverProcess. -/

theorem sweepLoop_listCreated (env : RolloverEnv) :
    ∀ (i : Nat) (L : List TList) (stats : RunStats),
      ((sweepLoop env i L stats).1).listCreated = stats.listCreated := by
  intro i L
  induction L generalizing i with
  | nil => intro stats; rfl
  | cons l rest ih =>
    intro stats
    rw [sweepLoop]
    by_cases h : env.timeoutSeconds * 1000 < env.elapsedMillis i
    · rw [if_pos h]
    · rw [if_neg h]
      exact ih (i + 1) (sweepStep env stats l)

theorem sweepLoop_timeout (env : RolloverEnv) :
    ∀ (k i : Nat) (L : List TList) (stats : RunStats), k < L.length →
      (∀ j, j < k → env.elapsedMillis (i + j) ≤ env.timeoutSeconds * 1000) →
      env.timeoutSeconds * 1000 < env.elapsedMillis (i + k) →
      sweepLoop env i L stats =
        ({ (L.take k).foldl (sweepStep env) stats with notes := pauseNote }, L.take k) := by
  intro k
  induction k with
  | zero =>
    intro i L stats hk _ hex
    cases L with
    | nil => simp at hk
    | cons l rest =>
      rw [sweepLoop, if_pos (by simpa using hex)]
      rfl
  | succ k ih =>
    intro i L stats hk hok hex
    cases L with
    | nil => simp at hk
    | cons l rest =>
      have hnot : ¬ env.timeoutSeconds * 1000 < env.elapsedMillis i := by
        have h0 := hok 0 (by omega)
        simp only [Nat.add_zero] at h0
        omega
      rw [sweepLoop, if_neg hnot]
      have ihr := ih (i + 1) rest (sweepStep env stats l) (by simpa using hk)
        (fun j hj => by
          have hj1 := hok (j + 1) (by omega)
          rw [show i + 1 + j = i + (j + 1) from by omega]
          exact hj1)
        (by rw [show i + 1 + k = i + (k + 1) from by omega]; exact hex)
      rw [ihr]
      rfl

theorem foldl_sweepStep_listDeleted (env : RolloverEnv) (M : List TList) :
    ∀ s : RunStats, (M.foldl (sweepStep env) s).listDeleted = s.listDeleted + M.length := by
  induction M with
  | nil => intro s; simp
  | cons l rest ih =>
    intro s
    rw [List.foldl_cons, ih]
    show (sweepStep env s l).listDeleted + rest.length = s.listDeleted + (rest.length + 1)
    show s.listDeleted + 1 + rest.length = s.listDeleted + (rest.length + 1)
    omega

theorem foldl_sweepStep_inboxAdds (env : RolloverEnv) (M : List TList) :
    ∀ s : RunStats, (M.foldl (sweepStep env) s).inboxAdds =
      s.inboxAdds + (M.map (fun l => env.migratedCount l.id)).sum := by
  induction M with
  | nil => intro s; simp
  | cons l rest ih =>
    intro s
    rw [List.foldl_cons, ih]
    show (sweepStep env s l).inboxAdds + _ = _
    show s.inboxAdds + env.migratedCount l.id + (rest.map (fun x => env.migratedCount x.id)).sum
      = s.inboxAdds + ((l :: rest).map (fun x => env.migratedCount x.id)).sum
    rw [List.map_cons, List.sum_cons]
    omega

theorem rolloverProcess_ok_today (env : RolloverEnv) (todayTitle : List Char)
    (stats : RunStats) (inb tl : TList)
    (hinb : env.allLists.find? (fun l => decide (l.title = env.inboxListName)) = some inb)
    (htoday : env.allLists.find?
      (fun l => decide (l.title = todayFullName env todayTitle)) = some tl) :
    rolloverProcess env todayTitle stats = Except.ok
      { stats := (sweepLoop env 0
          (env.allLists.filter (isStale env (todayFullName env todayTitle))) stats).1,
        todayListId := tl.id, inboxId := inb.id,
        processed := (sweepLoop env 0
          (env.allLists.filter (isStale env (todayFullName env todayTitle))) stats).2,
        created := [] } := by
  simp only [rolloverProcess, hinb, htoday]

theorem rolloverProcess_ok_create (env : RolloverEnv) (todayTitle : List Char)
    (stats : RunStats) (inb : TList)
    (hinb : env.allLists.find? (fun l => decide (l.title = env.inboxListName)) = some inb)
    (htoday : env.allLists.find?
      (fun l => decide (l.title = todayFullName env todayTitle)) = none) :
    rolloverProcess env todayTitle stats = Except.ok
      { stats := { (sweepLoop env 0
            (env.allLists.filter (isStale env (todayFullName env todayTitle))) stats).1 with
          listCreated := (sweepLoop env 0
            (env.allLists.filter (isStale env (todayFullName env todayTitle))) stats).1.listCreated + 1 },
        todayListId := env.newListId, inboxId := inb.id,
        processed := (sweepLoop env 0
          (env.allLists.filter (isStale env (todayFullName env todayTitle))) stats).2,
        created := [{ id := env.newListId, title := todayFullName env todayTitle }] } := by
  simp only [rolloverProcess, hinb, htoday]

/-- C3: the elapsed-time budget is checked before each stale list; when
the clock first exceeds the budget at the check after k fully processed
lists, the sweep stops with listsDeleted equal to k, exactly the first k
stale lists were migrated and deleted (the remaining ones are untouched:
inboxAdds accumulates only their migration counts) and the run notes
record the pause. -/
theorem C3_timeout_pause (env : RolloverEnv) (todayTitle : List Char) (k : Nat)
    (hinbox : (env.allLists.find? (fun l => decide (l.title = env.inboxListName))).isSome)
    (hk : k < (env.allLists.filter (isStale env (todayFullName env todayTitle))).length)
    (hok : ∀ j, j < k → env.elapsedMillis j ≤ env.timeoutSeconds * 1000)
    (hex : env.timeoutSeconds * 1000 < env.elapsedMillis k) :
    ∃ res, rolloverProcess env todayTitle initStats = Except.ok res ∧
      res.stats.listDeleted = k ∧
      res.processed =
        (env.allLists.filter (isStale env (todayFullName env todayTitle))).take k ∧
      res.stats.notes = pauseNote ∧
      res.stats.inboxAdds =
        (((env.allLists.filter (isStale env (todayFullName env todayTitle))).take k).map
          (fun l => env.migratedCount l.id)).sum := by
  obtain ⟨inb, hinb⟩ := Option.isSome_iff_exists.mp hinbox
  have hsweep := sweepLoop_timeout env k 0
    (env.allLists.filter (isStale env (todayFullName env todayTitle))) initStats hk
    (fun j hj => by simpa using hok j hj) (by simpa using hex)
  have hdel : ((env.allLists.filter (isStale env (todayFullName env todayTitle))).take k).length = k := by
    rw [List.length_take]
    omega
  cases htoday : env.allLists.find?
      (fun l => decide (l.title = todayFullName env todayTitle)) with
  | some tl =>
    refine ⟨_, rolloverProcess_ok_today env todayTitle initStats inb tl hinb htoday,
      ?_, ?_, ?_, ?_⟩
    · rw [hsweep]
      show (((env.allLists.filter (isStale env (todayFullName env todayTitle))).take k).foldl
        (sweepStep env) initStats).listDeleted = k
      rw [foldl_sweepStep_listDeleted, hdel]
      simp [initStats]
    · rw [hsweep]
    · rw [hsweep]
    · rw [hsweep]
      show (((env.allLists.filter (isStale env (todayFullName env todayTitle))).take k).foldl
        (sweepStep env) initStats).inboxAdds = _
      rw [foldl_sweepStep_inboxAdds]
      simp [initStats]
  | none =>
    refine ⟨_, rolloverProcess_ok_create env todayTitle initStats inb hinb htoday,
      ?_, ?_, ?_, ?_⟩
    · rw [hsweep]
      show (((env.allLists.filter (isStale env (todayFullName env todayTitle))).take k).foldl
        (sweepStep env) initStats).listDeleted = k
      rw [foldl_sweepStep_listDeleted, hdel]
      simp [initStats]
    · rw [hsweep]
    · rw [hsweep]
    · rw [hsweep]
      show (((env.allLists.filter (isStale env (todayFullName env todayTitle))).take k).foldl
        (sweepStep env) initStats).inboxAdds = _
      rw [foldl_sweepStep_inboxAdds]
      simp [initStats]

/-- Witness for C3: five stale lists and a clock exceeding the budget at
the third check leave exactly the first two processed. -/
theorem C3_timeout_pause_witness :
    ∃ res, rolloverProcess wSweepEnv ("July 9, 2025".data) initStats = Except.ok res ∧
      res.stats.listDeleted = 2 ∧
      res.processed =
        (wSweepEnv.allLists.filter
          (isStale wSweepEnv (todayFullName wSweepEnv ("July 9, 2025".data)))).take 2 ∧
      res.stats.notes = pauseNote ∧
      res.stats.inboxAdds =
        (((wSweepEnv.allLists.filter
          (isStale wSweepEnv (todayFullName wSweepEnv ("July 9, 2025".data)))).take 2).map
          (fun l => wSweepEnv.migratedCount l.id)).sum :=
  C3_timeout_pause wSweepEnv ("July 9, 2025".data) 2 (by decide) (by decide)
    (by decide) (by decide)

/-- C4: rolloverProcess creates the today list exactly when no list with
the computed full title already exists; listsCreated of the run is 0 in
the first case, 1 in the second, and in every successful run it is 0 or
1. -/
theorem C4_today_unique (env : RolloverEnv) (todayTitle : List Char)
    (hinbox : (env.allLists.find? (fun l => decide (l.title = env.inboxListName))).isSome) :
    ∃ res, rolloverProcess env todayTitle initStats = Except.ok res ∧
      ((∃ l ∈ env.allLists, l.title = todayFullName env todayTitle) →
        res.created = [] ∧ res.stats.listCreated = 0) ∧
      ((¬ ∃ l ∈ env.allLists, l.title = todayFullName env todayTitle) →
        res.created = [{ id := env.newListId, title := todayFullName env todayTitle }] ∧
        res.stats.listCreated = 1) ∧
      (res.stats.listCreated = 0 ∨ res.stats.listCreated = 1) := by
  obtain ⟨inb, hinb⟩ := Option.isSome_iff_exists.mp hinbox
  cases htoday : env.allLists.find?
      (fun l => decide (l.title = todayFullName env todayTitle)) with
  | some tl =>
    have hmem : tl ∈ env.allLists := List.mem_of_find?_eq_some htoday
    have htl : tl.title = todayFullName env todayTitle := by
      have := List.find?_some htoday
      simpa using this
    refine ⟨_, rolloverProcess_ok_today env todayTitle initStats inb tl hinb htoday,
      ?_, ?_, ?_⟩
    · intro _
      refine ⟨rfl, ?_⟩
      show ((sweepLoop env 0
        (env.allLists.filter (isStale env (todayFullName env todayTitle))) initStats).1).listCreated = 0
      rw [sweepLoop_listCreated]
      rfl
    · intro hno
      exact absurd ⟨tl, hmem, htl⟩ hno
    · left
      show ((sweepLoop env 0
        (env.allLists.filter (isStale env (todayFullName env todayTitle))) initStats).1).listCreated = 0
      rw [sweepLoop_listCreated]
      rfl
  | none =>
    have hno : ¬ ∃ l ∈ env.allLists, l.title = todayFullName env todayTitle := by
      intro ⟨l, hmem, hl⟩
      have := List.find?_eq_none.mp htoday l hmem
      simp [hl] at this
    refine ⟨_, rolloverProcess_ok_create env todayTitle initStats inb hinb htoday,
      ?_, ?_, ?_⟩
    · intro hyes
      exact absurd hyes hno
    · intro _
      refine ⟨rfl, ?_⟩
      show ((sweepLoop env 0
        (env.allLists.filter (isStale env (todayFullName env todayTitle))) initStats).1).listCreated + 1 = 1
      rw [sweepLoop_listCreated]
      rfl
    · right
      show ((sweepLoop env 0
        (env.allLists.filter (isStale env (todayFullName env todayTitle))) initStats).1).listCreated + 1 = 1
      rw [sweepLoop_listCreated]
      rfl

/-- Witness for C4: with only the inbox present, the today list is
created once. -/
theorem C4_today_unique_witness :
    ∃ res, rolloverProcess wCreateEnv ("July 9, 2025".data) initStats = Except.ok res ∧
      ((∃ l ∈ wCreateEnv.allLists, l.title = todayFullName wCreateEnv ("July 9, 2025".data)) →
        res.created = [] ∧ res.stats.listCreated = 0) ∧
      ((¬ ∃ l ∈ wCreateEnv.allLists, l.title = todayFullName wCreateEnv ("July 9, 2025".data)) →
        res.created =
          [{ id := wCreateEnv.newListId, title := todayFullName wCreateEnv ("July 9, 2025".data) }] ∧
        res.stats.listCreated = 1) ∧
      (res.stats.listCreated = 0 ∨ res.stats.listCreated = 1) :=
  C4_today_unique wCreateEnv ("July 9, 2025".data) (by decide)

/-! Lemmas about the dailyRunner orchestrator. -/

/-- C2: with the lock acquired, the lock is released on every path, and
whenever some phase of the sequence raises an error, the one top-level
handler logs the partial statistics overwritten with the fatal marker
and sends exactly one failure notification. -/
theorem C2_fatal_path (env : DailyEnv) (hl : env.lockAcquired = true) :
    (dailyRunner env).lockReleased = true ∧
    (∀ s m, firstError env = some (s, m) →
      ({ s with notes := fatalNote m }) ∈ (dailyRunner env).logged ∧
      (dailyRunner env).emails = [failSubject]) := by
  rcases hr1 : env.rollover initStats with ⟨s1, e1⟩
  cases e1 with
  | some m1 =>
    constructor
    · simp [dailyRunner, hl, hr1]
    · intro s m hf
      simp only [firstError, hr1] at hf
      obtain ⟨hs, hm⟩ : s1 = s ∧ m1 = m := by
        constructor <;> [exact congrArg Prod.fst (Option.some.inj hf);
          exact congrArg Prod.snd (Option.some.inj hf)]
      subst hs; subst hm
      simp [dailyRunner, hl, hr1]
  | none =>
    rcases hr2 : (if env.autoMove then env.inbox s1 else (s1, none)) with ⟨s2, e2⟩
    cases e2 with
    | some m2 =>
      constructor
      · simp [dailyRunner, hl, hr1, hr2]
      · intro s m hf
        simp only [firstError, hr1, hr2] at hf
        obtain ⟨hs, hm⟩ : s2 = s ∧ m2 = m := by
          constructor <;> [exact congrArg Prod.fst (Option.some.inj hf);
            exact congrArg Prod.snd (Option.some.inj hf)]
        subst hs; subst hm
        simp [dailyRunner, hl, hr1, hr2]
    | none =>
      cases h3 : (if env.digestDay then env.digestErr else none) with
      | some m3 =>
        constructor
        · simp [dailyRunner, hl, hr1, hr2, h3]
        · intro s m hf
          simp only [firstError, hr1, hr2, h3] at hf
          obtain ⟨hs, hm⟩ : s2 = s ∧ m3 = m := by
            constructor <;> [exact congrArg Prod.fst (Option.some.inj hf);
              exact congrArg Prod.snd (Option.some.inj hf)]
          subst hs; subst hm
          simp [dailyRunner, hl, hr1, hr2, h3]
      | none =>
        constructor
        · simp [dailyRunner, hl, hr1, hr2, h3]
        · intro s m hf
          simp only [firstError, hr1, hr2, h3] at hf
          exact absurd hf (by simp)

/-- Witness for C2: a rollover failure after two inbox additions is
logged with the fatal note, notified once, and the lock is released. -/
theorem C2_fatal_path_witness :
    (dailyRunner wFailEnv).lockReleased = true ∧
    ({ initStats with inboxAdds := 2, notes := fatalNote ("storage down".data) }
      ∈ (dailyRunner wFailEnv).logged) ∧
    (dailyRunner wFailEnv).emails = [failSubject] := by
  refine ⟨(C2_fatal_path wFailEnv rfl).1, ?_, ?_⟩
  · exact ((C2_fatal_path wFailEnv rfl).2 { initStats with inboxAdds := 2 }
      ("storage down".data) rfl).1
  · exact ((C2_fatal_path wFailEnv rfl).2 { initStats with inboxAdds := 2 }
      ("storage down".data) rfl).2

/-- C9: when the lock is not acquired, dailyRunner is a silent no-op: no
phase runs, nothing is logged, no email is sent, and the deferral is not
recorded as a failed run. -/
theorem C9_lock_deferral (env : DailyEnv) (h : env.lockAcquired = false) :
    dailyRunner env =
      { ranRollover := false, ranInbox := false, ranDigest := false,
        logged := [], emails := [], lockReleased := false } := by
  simp [dailyRunner, h]

/-- Witness for C9 at a concrete environment with a failed lock. -/
theorem C9_lock_deferral_witness :
    dailyRunner wLockedEnv =
      { ranRollover := false, ranInbox := false, ranDigest := false,
        logged := [], emails := [], lockReleased := false } :=
  C9_lock_deferral wLockedEnv rfl

end GTaskManager
